import Mathlib

/-!
Verification of the cove chat client's core against its design document.

The development shallowly embeds the relevant Rust source files:
  * `src/store.rs`             — the message `Tree` (forest node) and its
    navigation functions (`children`, `siblings`, `prev_sibling`,
    `next_sibling`);
  * `cove-tui/src/room.rs`     — the room driver (`Room::run`), the room
    state (`RoomState`), reply handling (`on_rpl`, `on_ntf`) and the
    command path (`RoomState::cmd`);
  * `src/ui/chat/tree.rs`      — the tree view's editor/cursor handling
    (`handle_editor_key_event`, `sent`);
  * `cove/src/ui/rooms.rs`     — the rooms UI's delete dialog
    (`handle_input_event`, `stabilize_rooms`).

Rust `HashMap`s are embedded as association lists (insertion overwrites,
iteration order is irrelevant wherever the code sorts or the properties are
order-insensitive), machine integers as `Nat` (the `u64` request counter
never wraps in any finite run we model), and fallible calls as `Except` /
`Option` values.  Effects (frames written to the socket, vault operations)
are returned as explicit action lists.
-/

namespace Cove

/-! ## Message store: `src/store.rs` -/

/-- A message as seen by the store (`trait Msg`): an id, an optional parent
id and a seen bit.  Ids are embedded as `Nat` (the trait only requires a
total order). -/
structure StoreMsg where
  id : Nat
  parent : Option Nat
  seen : Bool
deriving DecidableEq, Repr

/-- Deduplicate a message list by id, keeping the last occurrence of each
id.  This models collecting `Vec<M>` into a `HashMap<M::Id, M>` keyed by
`m.id()` in `Tree::new` (later inserts overwrite earlier ones). -/
def dedupById : List StoreMsg → List StoreMsg
  | [] => []
  | m :: rest =>
    if ∃ m2 ∈ rest, m2.id = m.id then dedupById rest
    else m :: dedupById rest

/-- The ids of all messages in `msgs` whose parent is `p` — the contents of
the `children` map entry for key `p` built by `Tree::new` (before
sorting). -/
def childIds (msgs : List StoreMsg) (p : Nat) : List Nat :=
  (msgs.filter (fun m => m.parent = some p)).map (fun m => m.id)

/-- `Tree` from `src/store.rs`: a root id plus the message map.  The
`children` map of the Rust struct is recomputed on demand by
`Tree.children` below; this is equivalent because the map is built once
from `msgs` and never mutated. -/
structure Tree where
  root : Nat
  msgs : List StoreMsg

/-- `Tree::new(root, msgs)`: collect the messages into a map keyed by id. -/
def Tree.new (root : Nat) (msgs : List StoreMsg) : Tree :=
  ⟨root, dedupById msgs⟩

/-- `HashMap::get` on the message map (`Tree::msg`). -/
def Tree.msg (t : Tree) (id : Nat) : Option StoreMsg :=
  t.msgs.find? (fun m => m.id = id)

/-- `Tree::parent`: `self.msg(id).and_then(|m| m.parent())`. -/
def Tree.parent (t : Tree) (id : Nat) : Option Nat :=
  (t.msg id).bind StoreMsg.parent

/-- `Tree::children`: `self.children.get(id)`.  The Rust `children` map has
an entry for `id` exactly when some message has id `id` (the `or_default`
on `msg.id()`) or some message has parent `id` (the `or_default` on the
parent before pushing); the entry holds the ids of the messages whose
parent is `id`, sorted ascending by `sort_unstable`. -/
def Tree.children (t : Tree) (id : Nat) : Option (List Nat) :=
  if (∃ m ∈ t.msgs, m.id = id) ∨ (∃ m ∈ t.msgs, m.parent = some id) then
    some (List.insertionSort (· ≤ ·) (childIds t.msgs id))
  else
    none

/-- `Tree::siblings`: children of the parent (`if let Some(parent) =
self.parent(id) { self.children(&parent) } else { None }`). -/
def Tree.siblings (t : Tree) (id : Nat) : Option (List Nat) :=
  (t.parent id).bind (fun p => t.children p)

/-- `Tree::next_sibling`: zip the sibling list with its tail, find the pair
whose first component is `id`, return the second component.  The `?` on
`self.siblings(id)?` is `Option.bind`. -/
def Tree.next_sibling (t : Tree) (id : Nat) : Option Nat :=
  (t.siblings id).bind (fun sibs =>
    ((sibs.zip sibs.tail).find? (fun q => q.1 = id)).map Prod.snd)

/-- `Tree::prev_sibling`: zip the sibling list with its tail, find the pair
whose second component is `id`, return the first component. -/
def Tree.prev_sibling (t : Tree) (id : Nat) : Option Nat :=
  (t.siblings id).bind (fun sibs =>
    ((sibs.zip sibs.tail).find? (fun q => q.2 = id)).map Prod.fst)

/-! ### Facts about the deduplicated message map -/

theorem mem_of_mem_dedupById {m : StoreMsg} : ∀ {l : List StoreMsg},
    m ∈ dedupById l → m ∈ l := by
  intro l
  induction l with
  | nil => intro h; simp [dedupById] at h
  | cons x rest ih =>
    intro h
    simp only [dedupById] at h
    split at h
    · exact List.mem_cons_of_mem _ (ih h)
    · rcases List.mem_cons.mp h with h | h
      · exact h ▸ List.mem_cons_self _ _
      · exact List.mem_cons_of_mem _ (ih h)

theorem dedupById_ids_nodup : ∀ (l : List StoreMsg),
    ((dedupById l).map (fun m => m.id)).Nodup := by
  intro l
  induction l with
  | nil => simp [dedupById]
  | cons x rest ih =>
    simp only [dedupById]
    split
    · exact ih
    · rename_i hnone
      simp only [List.map_cons, List.nodup_cons]
      refine ⟨?_, ih⟩
      intro hmem
      rcases List.mem_map.mp hmem with ⟨m2, hm2, hid⟩
      exact hnone ⟨m2, mem_of_mem_dedupById hm2, hid⟩

/-! ### Adjacent pairs in a sibling list

`prev_sibling` and `next_sibling` both search `siblings.zip(siblings.tail)`,
the list of adjacent pairs of the sibling list. -/

theorem adj_mem_fst {l : List Nat} {a b : Nat} (h : (a, b) ∈ l.zip l.tail) :
    a ∈ l :=
  (List.of_mem_zip h).1

theorem adj_mem_snd {l : List Nat} {a b : Nat} (h : (a, b) ∈ l.zip l.tail) :
    b ∈ l.tail :=
  (List.of_mem_zip h).2

theorem adj_unique_fst {a b b' : Nat} {l : List Nat} (hnd : l.Nodup)
    (h1 : (a, b) ∈ l.zip l.tail) (h2 : (a, b') ∈ l.zip l.tail) : b = b' := by
  induction l with
  | nil => simp at h1
  | cons x rest ih =>
    cases rest with
    | nil => simp at h1
    | cons y tl =>
      rw [List.nodup_cons] at hnd
      simp only [List.tail_cons] at h1 h2 ih
      simp only [List.zip_cons_cons, List.mem_cons, Prod.mk.injEq] at h1 h2
      rcases h1 with ⟨ha1, hb1⟩ | h1
      · rcases h2 with ⟨ha2, hb2⟩ | h2
        · rw [hb1, hb2]
        · exfalso
          have hmem : a ∈ y :: tl := adj_mem_fst (l := y :: tl) (by simpa using h2)
          exact hnd.1 (ha1 ▸ hmem)
      · rcases h2 with ⟨ha2, hb2⟩ | h2
        · exfalso
          have hmem : a ∈ y :: tl := adj_mem_fst (l := y :: tl) (by simpa using h1)
          exact hnd.1 (ha2 ▸ hmem)
        · exact ih hnd.2 (by simpa using h1) (by simpa using h2)

theorem adj_unique_snd {a a' b : Nat} {l : List Nat} (hnd : l.Nodup)
    (h1 : (a, b) ∈ l.zip l.tail) (h2 : (a', b) ∈ l.zip l.tail) : a = a' := by
  induction l with
  | nil => simp at h1
  | cons x rest ih =>
    cases rest with
    | nil => simp at h1
    | cons y tl =>
      rw [List.nodup_cons] at hnd
      simp only [List.tail_cons] at h1 h2 ih
      simp only [List.zip_cons_cons, List.mem_cons, Prod.mk.injEq] at h1 h2
      rcases h1 with ⟨ha1, hb1⟩ | h1
      · rcases h2 with ⟨ha2, hb2⟩ | h2
        · rw [ha1, ha2]
        · exfalso
          have hmem : b ∈ tl := by
            simpa using adj_mem_snd (l := y :: tl) (by simpa using h2)
          exact (List.nodup_cons.mp hnd.2).1 (hb1 ▸ hmem)
      · rcases h2 with ⟨ha2, hb2⟩ | h2
        · exfalso
          have hmem : b ∈ tl := by
            simpa using adj_mem_snd (l := y :: tl) (by simpa using h1)
          rw [List.nodup_cons] at hnd
          exact hnd.2.1 (hb2 ▸ hmem)
        · exact ih hnd.2 (by simpa using h1) (by simpa using h2)

theorem adj_find_fst {l : List Nat} {a b : Nat} (hnd : l.Nodup)
    (hmem : (a, b) ∈ l.zip l.tail) :
    (l.zip l.tail).find? (fun q => q.1 = a) = some (a, b) := by
  cases hfind : (l.zip l.tail).find? (fun q => q.1 = a) with
  | none =>
    exfalso
    have := List.find?_eq_none.mp hfind _ hmem
    simp at this
  | some pr =>
    obtain ⟨p1, p2⟩ := pr
    have hp : p1 = a := by simpa using List.find?_some hfind
    subst hp
    have hm := List.mem_of_find?_eq_some hfind
    rw [adj_unique_fst hnd hm hmem]

theorem adj_find_snd {l : List Nat} {a b : Nat} (hnd : l.Nodup)
    (hmem : (a, b) ∈ l.zip l.tail) :
    (l.zip l.tail).find? (fun q => q.2 = b) = some (a, b) := by
  cases hfind : (l.zip l.tail).find? (fun q => q.2 = b) with
  | none =>
    exfalso
    have := List.find?_eq_none.mp hfind _ hmem
    simp at this
  | some pr =>
    obtain ⟨p1, p2⟩ := pr
    have hp : p2 = b := by simpa using List.find?_some hfind
    subst hp
    have hm := List.mem_of_find?_eq_some hfind
    rw [adj_unique_snd hnd hm hmem]

/-! ### Lookups and child lists -/

theorem find?_id_of_mem {msgs : List StoreMsg}
    (hnd : (msgs.map (fun m => m.id)).Nodup) {m : StoreMsg} (hm : m ∈ msgs) :
    msgs.find? (fun m2 => m2.id = m.id) = some m := by
  induction msgs with
  | nil => simp at hm
  | cons x rest ih =>
    simp only [List.map_cons, List.nodup_cons] at hnd
    rcases List.mem_cons.mp hm with rfl | hm2
    · simp [List.find?_cons]
    · have hne : x.id ≠ m.id := by
        intro he
        exact hnd.1 (he ▸ List.mem_map_of_mem _ hm2)
      rw [List.find?_cons]
      simp only [hne, decide_eq_true_eq, if_neg]
      exact ih hnd.2 hm2

theorem childIds_nodup {msgs : List StoreMsg}
    (hnd : (msgs.map (fun m => m.id)).Nodup) (p : Nat) :
    (childIds msgs p).Nodup := by
  unfold childIds
  exact List.Nodup.sublist ((List.filter_sublist msgs).map (fun m => m.id)) hnd

theorem mem_childIds_iff {msgs : List StoreMsg} {p b : Nat} :
    b ∈ childIds msgs p ↔ ∃ m ∈ msgs, m.id = b ∧ m.parent = some p := by
  simp only [childIds, List.mem_map, List.mem_filter, decide_eq_true_eq]
  constructor
  · rintro ⟨m, ⟨hm, hp⟩, hid⟩
    exact ⟨m, hm, hid, hp⟩
  · rintro ⟨m, hm, hid, hp⟩
    exact ⟨m, ⟨hm, hp⟩, hid⟩

/-- A member of a child list is an id present in the message map, and its
message's parent field is the child list's key. -/
theorem parent_of_mem_childIds {msgs : List StoreMsg}
    (hnd : (msgs.map (fun m => m.id)).Nodup) {p b : Nat}
    (hb : b ∈ childIds msgs p) :
    ∃ m, msgs.find? (fun m2 => m2.id = b) = some m ∧ m.parent = some p := by
  rcases mem_childIds_iff.mp hb with ⟨m, hm, hid, hp⟩
  refine ⟨m, ?_, hp⟩
  rw [← hid]
  exact find?_id_of_mem hnd hm

/-- Unfolding `Tree.children` when it succeeds. -/
theorem children_eq_some {t : Tree} {p : Nat} {sibs : List Nat}
    (h : t.children p = some sibs) :
    sibs = List.insertionSort (· ≤ ·) (childIds t.msgs p) := by
  unfold Tree.children at h
  split at h
  · exact (Option.some.injEq _ _ ▸ h).symm
  · exact absurd h (by simp)

theorem children_sorted_le {t : Tree} {p : Nat} {sibs : List Nat}
    (h : t.children p = some sibs) : List.Sorted (· ≤ ·) sibs := by
  rw [children_eq_some h]
  exact List.sorted_insertionSort _ _

theorem children_perm {t : Tree} {p : Nat} {sibs : List Nat}
    (h : t.children p = some sibs) : List.Perm sibs (childIds t.msgs p) := by
  rw [children_eq_some h]
  exact List.perm_insertionSort _ _

theorem children_nodup {t : Tree} (hnd : (t.msgs.map (fun m => m.id)).Nodup)
    {p : Nat} {sibs : List Nat} (h : t.children p = some sibs) :
    sibs.Nodup :=
  (children_perm h).nodup_iff.mpr (childIds_nodup hnd p)

/-- If `b` occurs in a successful `children p` result, then `b`'s message is
in the map and its parent field is `p`; hence `b`'s own sibling list is the
same `children p` list. -/
theorem siblings_of_mem_children {t : Tree}
    (hnd : (t.msgs.map (fun m => m.id)).Nodup) {p b : Nat} {sibs : List Nat}
    (h : t.children p = some sibs) (hb : b ∈ sibs) :
    t.siblings b = some sibs := by
  have hbc : b ∈ childIds t.msgs p := (children_perm h).mem_iff.mp hb
  rcases parent_of_mem_childIds hnd hbc with ⟨m, hfind, hp⟩
  unfold Tree.siblings Tree.parent Tree.msg
  rw [hfind, Option.some_bind, hp, Option.some_bind]
  exact h

/-- Core duality: `next_sibling a = some b` iff `prev_sibling b = some a`,
for any tree whose message map has no duplicate ids. -/
theorem next_prev_duality {t : Tree} (hnd : (t.msgs.map (fun m => m.id)).Nodup)
    (a b : Nat) : t.next_sibling a = some b ↔ t.prev_sibling b = some a := by
  constructor
  · intro h
    unfold Tree.next_sibling at h
    rcases Option.bind_eq_some.mp h with ⟨sibs, hs, hfind⟩
    rcases Option.map_eq_some'.mp hfind with ⟨pr, hpr, hsnd⟩
    obtain ⟨p1, p2⟩ := pr
    have hp1 : p1 = a := by simpa using List.find?_some hpr
    have hp2 : p2 = b := hsnd
    have hmem : (a, b) ∈ sibs.zip sibs.tail := by
      have hm := List.mem_of_find?_eq_some hpr
      rw [hp1, hp2] at hm
      exact hm
    rcases Option.bind_eq_some.mp hs with ⟨p, hpar, hch⟩
    have hnds : sibs.Nodup := children_nodup hnd hch
    have hbmem : b ∈ sibs := List.mem_of_mem_tail (adj_mem_snd hmem)
    have hsibb : t.siblings b = some sibs := siblings_of_mem_children hnd hch hbmem
    unfold Tree.prev_sibling
    rw [hsibb, Option.some_bind, adj_find_snd hnds hmem]
    rfl
  · intro h
    unfold Tree.prev_sibling at h
    rcases Option.bind_eq_some.mp h with ⟨sibs, hs, hfind⟩
    rcases Option.map_eq_some'.mp hfind with ⟨pr, hpr, hfst⟩
    obtain ⟨p1, p2⟩ := pr
    have hp2 : p2 = b := by simpa using List.find?_some hpr
    have hp1 : p1 = a := hfst
    have hmem : (a, b) ∈ sibs.zip sibs.tail := by
      have hm := List.mem_of_find?_eq_some hpr
      rw [hp1, hp2] at hm
      exact hm
    rcases Option.bind_eq_some.mp hs with ⟨p, hpar, hch⟩
    have hnds : sibs.Nodup := children_nodup hnd hch
    have hamem : a ∈ sibs := adj_mem_fst hmem
    have hsiba : t.siblings a = some sibs := siblings_of_mem_children hnd hch hamem
    unfold Tree.next_sibling
    rw [hsiba, Option.some_bind, adj_find_fst hnds hmem]
    rfl

/-- **C8**. For every tree built by `Tree::new` from any root id and any
message list, and for every node id with a `children` entry, the stored
child list is strictly ascending by id: `sort_unstable` sorts it weakly,
and it has no duplicates because distinct messages have distinct ids in the
message map. -/
theorem tree_children_sorted (root : Nat) (msgs : List StoreMsg) (id : Nat)
    (l : List Nat) (h : (Tree.new root msgs).children id = some l) :
    List.Sorted (· < ·) l := by
  have hnd : (((Tree.new root msgs).msgs).map (fun m => m.id)).Nodup :=
    dedupById_ids_nodup msgs
  exact (children_sorted_le h).lt_of_le (children_nodup hnd h)

/-- **C9**. In every tree and for all message ids `a`, `b` in it,
`next_sibling(a) = Some(b)` iff `prev_sibling(b) = Some(a)`; and both
sibling functions return `None` for an id whose message has no parent. -/
theorem tree_sibling_duality (root : Nat) (msgs : List StoreMsg) (a b : Nat)
    (ha : (Tree.new root msgs).msg a ≠ none)
    (hb : (Tree.new root msgs).msg b ≠ none) :
    ((Tree.new root msgs).next_sibling a = some b ↔
      (Tree.new root msgs).prev_sibling b = some a) ∧
    ((Tree.new root msgs).parent a = none →
      (Tree.new root msgs).next_sibling a = none ∧
      (Tree.new root msgs).prev_sibling a = none) := by
  constructor
  · exact next_prev_duality (dedupById_ids_nodup msgs) a b
  · intro hp
    unfold Tree.next_sibling Tree.prev_sibling Tree.siblings
    rw [hp]
    simp

/-- The message forest of end-to-end scenario 4 of the design document:
ids 1–5 with parents 2→1, 3→1, 4→3, and 5 a second root. -/
def demoMsgs : List StoreMsg :=
  [⟨1, none, false⟩, ⟨2, some 1, false⟩, ⟨3, some 1, false⟩,
   ⟨4, some 3, false⟩, ⟨5, none, false⟩]

theorem tree_children_sorted_witness :
    (Tree.new 1 demoMsgs).children 1 = some [2, 3] ∧
      List.Sorted (· < ·) [2, 3] :=
  ⟨by decide, tree_children_sorted 1 demoMsgs 1 [2, 3] (by decide)⟩

theorem tree_sibling_duality_witness :
    (Tree.new 1 demoMsgs).msg 2 ≠ none ∧
    (Tree.new 1 demoMsgs).msg 3 ≠ none ∧
    (((Tree.new 1 demoMsgs).next_sibling 2 = some 3 ↔
       (Tree.new 1 demoMsgs).prev_sibling 3 = some 2) ∧
     ((Tree.new 1 demoMsgs).parent 2 = none →
       (Tree.new 1 demoMsgs).next_sibling 2 = none ∧
       (Tree.new 1 demoMsgs).prev_sibling 2 = none)) :=
  ⟨by decide, by decide,
   tree_sibling_duality 1 demoMsgs 2 3 (by decide) (by decide)⟩

/-! ## Room driver: `cove-tui/src/room.rs`

The protocol types (`Cmd`, `Rpl`, `Ntf`, `Packet`) live in the `cove-core`
crate, which is not part of the sources; they are modelled from the spec's
wire-protocol section (§6), which matches every use site in `room.rs`.
Session ids are strings, as in the spec's scenarios (`id:"s1"`). -/

/-- Modelled from the spec: `cove_core::Session`, a session descriptor with
a session id and a nick. -/
structure Session where
  id : String
  name : String
deriving DecidableEq, Repr

/-- Modelled from the spec: the command payloads of §6. -/
inductive Cmd
  | room (name : String)
  | identify (nick : String) (identity : String)
  | nick (nick : String)
  | send (content : String) (par : Option Nat)
  | who
  | auth (password : String)
deriving DecidableEq, Repr

/-- Modelled from the spec: `Room` reply payloads. -/
inductive RoomRpl
  | success
  | invalidRoom (reason : String)
deriving DecidableEq, Repr

/-- Modelled from the spec: `Identify` reply payloads. -/
inductive IdentifyRpl
  | success (you : Session) (others : List Session) (lastMessage : Option Nat)
  | invalidNick (reason : String)
  | invalidIdentity (reason : String)
deriving DecidableEq, Repr

/-- Modelled from the spec: `Nick` reply payloads. -/
inductive NickRpl
  | success (you : Session)
  | invalidNick (reason : String)
deriving DecidableEq, Repr

/-- Modelled from the spec: `Send` reply payloads (the message is
represented by its id). -/
inductive SendRpl
  | success (message : Nat)
  | invalidContent (reason : String)
deriving DecidableEq, Repr

/-- Modelled from the spec: `Who` reply payload. -/
structure WhoRpl where
  you : Session
  others : List Session
deriving DecidableEq, Repr

/-- Modelled from the spec: reply payloads. -/
inductive Rpl
  | room (r : RoomRpl)
  | identify (r : IdentifyRpl)
  | nick (r : NickRpl)
  | send (r : SendRpl)
  | who (r : WhoRpl)
deriving DecidableEq, Repr

/-- Modelled from the spec: notification payloads (`Send` carries the
message id). -/
inductive Ntf
  | join (who : Session)
  | nick (who : Session)
  | part (who : Session)
  | send (message : Nat)
deriving DecidableEq, Repr

/-- Modelled from the spec: protocol frames. -/
inductive Packet
  | cmd (id : Nat) (c : Cmd)
  | rpl (id : Nat) (r : Rpl)
  | ntf (n : Ntf)
deriving DecidableEq, Repr

/-- `conn::Error`, opaque to `room.rs`; only its identity matters. -/
structure ConnError where
  msg : String
deriving DecidableEq, Repr

/-- `StopReason` from `room.rs`. -/
inductive StopReason
  | couldNotConnect (e : ConnError)
  | invalidRoom (reason : String)
  | invalidIdentity (reason : String)
  | somethingWentWrong
deriving DecidableEq, Repr

/-- `Status` from `room.rs`. -/
inductive Status
  | connecting
  | reconnecting
  | identifying
  | nickRequired (err : Option String)
  | nominal
  | stopped (reason : StopReason)
deriving DecidableEq, Repr

/-- `RoomVerified` from `room.rs`. -/
inductive RoomVerified
  | yes
  | no (reason : StopReason)
deriving DecidableEq, Repr

/-- `Connected` from `room.rs`: the fresh-connection state.  `tx` is not
data (frames written through it are returned as effect lists); `replies`
(the `Replies` reply correlator of the `cove-tui` `replies` module, not in
the sources) is modelled from the spec (§4.B) as the list of outstanding
waiter ids. -/
structure Connected where
  nextId : Nat
  pending : List Nat
deriving DecidableEq, Repr

/-- `Present` from `room.rs`: own session plus the map of other sessions
keyed by session id. -/
structure Present where
  session : Session
  others : List (String × Session)
deriving DecidableEq, Repr

/-- `RoomState` from `room.rs`. -/
structure RoomState where
  identity : String
  initialNick : Option String
  status : Status
  connected : Option Connected
  present : Option Present
deriving DecidableEq, Repr

/-- `HashMap::insert` on an association list: overwrite the entry if the
key is present, append otherwise. -/
def assocInsert (m : List (String × Session)) (k : String) (v : Session) :
    List (String × Session) :=
  if m.any (fun p => p.1 = k) then
    m.map (fun p => if p.1 = k then (k, v) else p)
  else
    m ++ [(k, v)]

/-- `HashMap::remove` on an association list. -/
def assocRemove (m : List (String × Session)) (k : String) :
    List (String × Session) :=
  m.filter (fun p => p.1 ≠ k)

/-- Collecting an iterator of `(session.id, session)` pairs into a
`HashMap` (as in the `Identify`/`Who` reply handlers). -/
def collectSessions (l : List Session) : List (String × Session) :=
  l.foldl (fun m s => assocInsert m s.id s) []

/-- `Replies::complete(&id, rpl)` as far as the waiter map is concerned:
deliver to (and so remove) the waiter for `id`, drop silently if none.
Modelled from the spec (§4.B); the `replies` module is not in the
sources. -/
def Connected.complete (c : Connected) (id : Nat) : Connected :=
  { c with pending := c.pending.filter (fun i => i ≠ id) }

/-- `RoomState::on_rpl` after the `match`, lines 134–136: if connected,
complete the reply's waiter. -/
def RoomState.completeReply (s : RoomState) (id : Nat) : RoomState :=
  match s.connected with
  | some c => { s with connected := some (c.complete id) }
  | none => s

/-- `RoomState::on_rpl(id, rpl, room_verified)`.  Returns the new state,
the new `room_verified`, and `true` for `Ok(())` / `false` when the
function bails (`anyhow::bail!("invalid room")` on `InvalidRoom`, which
skips the final `replies.complete` call). -/
def RoomState.on_rpl (s : RoomState) (id : Nat) (rpl : Rpl)
    (rv : Option RoomVerified) : RoomState × Option RoomVerified × Bool :=
  let step : RoomState × Option RoomVerified × Bool :=
    match rpl with
    | .room .success => (s, some .yes, true)
    | .room (.invalidRoom reason) =>
      ({ s with status := .stopped (.invalidRoom reason) }, rv, false)
    | .identify (.success you others _) =>
      ({ s with present := some ⟨you, collectSessions others⟩ }, rv, true)
    | .identify (.invalidNick _) => (s, rv, true)
    | .identify (.invalidIdentity _) => (s, rv, true)
    | .nick (.success you) =>
      (match s.present with
       | some p => { s with present := some { p with session := you } }
       | none => s,
       rv, true)
    | .nick (.invalidNick _) => (s, rv, true)
    | .send (.success _) => (s, rv, true)
    | .send (.invalidContent _) => (s, rv, true)
    | .who ⟨you, others⟩ =>
      (match s.present with
       | some _ => { s with present := some ⟨you, collectSessions others⟩ }
       | none => s,
       rv, true)
  match step with
  | (s', rv', true) => (s'.completeReply id, rv', true)
  | (s', rv', false) => (s', rv', false)

/-- `RoomState::on_ntf`. -/
def RoomState.on_ntf (s : RoomState) (n : Ntf) : RoomState :=
  match n with
  | .join who =>
    match s.present with
    | some p => { s with present := some { p with others := assocInsert p.others who.id who } }
    | none => s
  | .nick who =>
    match s.present with
    | some p => { s with present := some { p with others := assocInsert p.others who.id who } }
    | none => s
  | .part who =>
    match s.present with
    | some p => { s with present := some { p with others := assocRemove p.others who.id } }
    | none => s
  | .send _ => s

/-- The synchronous body of `RoomState::cmd` (the part executed under the
state lock, lines 169–179): fail with `NotConnected` when there is no
connection; otherwise allocate the next request id, register a waiter and
write the frame.  Returns the result, the updated state and the list of
frames written to the connection. -/
inductive RoomError
  | notConnected
  | notPresent
  | incorrectReplyType
deriving DecidableEq, Repr

def RoomState.cmdSync (s : RoomState) (c : Cmd) :
    Except RoomError Nat × RoomState × List Packet :=
  match s.connected with
  | none => (.error .notConnected, s, [])
  | some conn =>
    (.ok conn.nextId,
     { s with connected := some { conn with
         nextId := conn.nextId + 1,
         pending := conn.pending ++ [conn.nextId] } },
     [Packet.cmd conn.nextId c])

/-- The ids allocated by a sequence of `cmd` calls (each call's synchronous
part run back to back). -/
def RoomState.allocIds (s : RoomState) : List Cmd → RoomState × List Nat
  | [] => (s, [])
  | c :: rest =>
    match s.cmdSync c with
    | (.ok id, s', _) =>
      let r := s'.allocIds rest
      (r.1, id :: r.2)
    | (.error _, s', _) =>
      let r := s'.allocIds rest
      (r.1, r.2)

/-- `Room::new`'s initial state (lines 241–247). -/
def RoomState.initial (identity : String) (initialNick : Option String) :
    RoomState :=
  ⟨identity, initialNick, .connecting, none, none⟩

/-- Lines 271–275 of `Room::run`: on a successful connect, install a fresh
`Connected` with `next_id: 0` and a new (empty) `Replies`. -/
def RoomState.connectState (s : RoomState) : RoomState :=
  { s with connected := some ⟨0, []⟩ }

/-- `Room::receive` over a finite inbound packet sequence that ends with
the transport failing (or the websocket closing).  `Cmd` packets are
ignored, `Rpl` goes through `on_rpl` (a bail ends the loop early, so the
final flag is `false` exactly when `on_rpl` bailed), `Ntf` through
`on_ntf`. -/
def RoomState.receiveList (s : RoomState) (rv : Option RoomVerified) :
    List Packet → RoomState × Option RoomVerified × Bool
  | [] => (s, rv, true)
  | p :: rest =>
    match p with
    | .cmd _ _ => s.receiveList rv rest
    | .ntf n => (s.on_ntf n).receiveList rv rest
    | .rpl id r =>
      match s.on_rpl id r rv with
      | (s', rv', true) => s'.receiveList rv' rest
      | (s', rv', false) => (s', rv', false)

/-- One connection attempt as the driver sees it: either `connect` itself
fails, or a connection is established and the driver processes the inbound
packets until the `select!` between the maintenance future and `receive`
ends (for a `connected` attempt the session always ends — by transport
failure, clean close, or an `on_rpl` bail). -/
inductive Attempt
  | connectFailed (e : ConnError)
  | connected (packets : List Packet)
deriving DecidableEq, Repr

/-- The "Clean up and maybe reconnect" block of `Room::run`, lines
288–302: set the status from `room_verified`; the returned flag is `true`
when the loop continues to another connection attempt and `false` when it
breaks. -/
def runCleanup (s : RoomState) (rv : Option RoomVerified) :
    RoomState × Option RoomVerified × Bool :=
  match rv with
  | some .yes => ({ s with status := .reconnecting }, some .yes, true)
  | some (.no reason) =>
    ({ s with status := .stopped reason }, some (.no reason), false)
  | none =>
    ({ s with status := .stopped .somethingWentWrong }, none, false)

/-- One iteration of the `loop` in `Room::run` (lines 267–303): try to
connect and run, then clean up. -/
def runStep (s : RoomState) (rv : Option RoomVerified) :
    Attempt → RoomState × Option RoomVerified × Bool
  | .connectFailed e =>
    let rv' := if rv.isNone then some (.no (.couldNotConnect e)) else rv
    runCleanup s rv'
  | .connected packets =>
    let r := (s.connectState).receiveList rv packets
    runCleanup r.1 r.2.1

/-- `Room::run` over a finite list of connection attempts: iterate
`runStep` until the loop breaks (or the supplied attempts are
exhausted). -/
def runList (s : RoomState) (rv : Option RoomVerified) :
    List Attempt → RoomState
  | [] => s
  | a :: rest =>
    match runStep s rv a with
    | (s', rv', true) => runList s' rv' rest
    | (s', _, false) => s'

/-- `on_rpl` either passes `room_verified` through or sets it to `Yes`
(the only write besides the connect-failure path in `run`). -/
theorem on_rpl_rv (s : RoomState) (id : Nat) (r : Rpl)
    (rv : Option RoomVerified) :
    (s.on_rpl id r rv).2.1 = rv ∨ (s.on_rpl id r rv).2.1 = some .yes := by
  unfold RoomState.on_rpl
  cases r with
  | room rr => cases rr <;> simp
  | identify ir => cases ir <;> simp
  | nick nr => cases nr <;> simp
  | send sr => cases sr <;> simp
  | who wr => obtain ⟨y, o⟩ := wr; simp

/-- Along `receive`, `room_verified` stays in {`None`, `Some(Yes)`}:
`RoomVerified::No` is only ever written by the connect-failure arm of
`run`, after which the loop breaks. -/
theorem receiveList_rv (ps : List Packet) :
    ∀ (s : RoomState) (rv : Option RoomVerified),
    rv = none ∨ rv = some .yes →
    (s.receiveList rv ps).2.1 = none ∨ (s.receiveList rv ps).2.1 = some .yes := by
  induction ps with
  | nil => intro s rv hrv; simpa [RoomState.receiveList] using hrv
  | cons p rest ih =>
    intro s rv hrv
    cases p with
    | cmd id c => exact ih _ _ hrv
    | ntf n => exact ih _ _ hrv
    | rpl id r =>
      rcases hsplit : s.on_rpl id r rv with ⟨s', rv', ok⟩
      have hrv' : rv' = none ∨ rv' = some .yes := by
        have h := on_rpl_rv s id r rv
        rw [hsplit] at h
        rcases h with h | h
        · rcases hrv with rfl | rfl
          · exact Or.inl h
          · exact Or.inr h
        · exact Or.inr h
      cases ok with
      | true =>
        simp only [RoomState.receiveList, hsplit]
        exact ih _ _ hrv'
      | false =>
        simp only [RoomState.receiveList, hsplit]
        exact hrv'

/-- The attempt ended in a transport failure (rather than an `on_rpl`
bail): trivially true for a failed connect; for an established connection,
`receive` processed the whole inbound sequence without bailing. -/
def attemptTransportEnded (s : RoomState) (rv : Option RoomVerified) :
    Attempt → Prop
  | .connectFailed _ => True
  | .connected ps => ((s.connectState).receiveList rv ps).2.2 = true

/-- **C1 (amended)**. For every driver iteration that ends in a transport
failure, starting from `room_verified ∈ {None, Some(Yes)}`: if a
`Room(Success)` reply has been observed by the end of the attempt
(`room_verified = Some(Yes)` afterwards), the status becomes
`Reconnecting` and the loop continues with a new connection attempt;
otherwise the loop breaks with no further attempts and the status becomes
`Stopped(CouldNotConnect)` when the failure ended a connection attempt
(`connect` itself failed) but `Stopped(SomethingWentWrong)` when it ended
an established connection. -/
theorem room_run_transport_failure (s : RoomState) (rv : Option RoomVerified)
    (a : Attempt) (rest : List Attempt)
    (hrv : rv = none ∨ rv = some .yes)
    (hok : attemptTransportEnded s rv a) :
    ((runStep s rv a).2.1 = some .yes →
      (runStep s rv a).1.status = .reconnecting ∧
      (runStep s rv a).2.2 = true ∧
      runList s rv (a :: rest) =
        runList (runStep s rv a).1 (runStep s rv a).2.1 rest) ∧
    ((runStep s rv a).2.1 ≠ some .yes →
      (runStep s rv a).2.2 = false ∧
      runList s rv (a :: rest) = (runStep s rv a).1 ∧
      (∀ e, a = .connectFailed e →
        (runStep s rv a).1.status = .stopped (.couldNotConnect e)) ∧
      (∀ ps, a = .connected ps →
        (runStep s rv a).1.status = .stopped .somethingWentWrong)) := by
  cases a with
  | connectFailed e =>
    rcases hrv with rfl | rfl
    · constructor
      · intro hy
        simp [runStep, runCleanup] at hy
      · intro _
        refine ⟨by simp [runStep, runCleanup], by simp [runList, runStep, runCleanup], ?_, ?_⟩
        · intro e' he
          cases he
          simp [runStep, runCleanup]
        · intro ps hps
          cases hps
    · constructor
      · intro _
        refine ⟨by simp [runStep, runCleanup], by simp [runStep, runCleanup], ?_⟩
        simp [runList, runStep, runCleanup]
      · intro hy
        exfalso
        exact hy (by simp [runStep, runCleanup])
  | connected ps =>
    rcases hrec : (s.connectState).receiveList rv ps with ⟨s2, rv2, okf⟩
    have hrv2 : rv2 = none ∨ rv2 = some .yes := by
      have h := receiveList_rv ps s.connectState rv hrv
      rw [hrec] at h
      exact h
    have hstep : runStep s rv (.connected ps) = runCleanup s2 rv2 := by
      simp [runStep, hrec]
    rcases hrv2 with rfl | rfl
    · constructor
      · intro hy
        rw [hstep] at hy
        simp [runCleanup] at hy
      · intro _
        refine ⟨?_, ?_, ?_, ?_⟩
        · rw [hstep]; simp [runCleanup]
        · simp only [runList, hstep]
          simp [runCleanup]
        · intro e he
          cases he
        · intro ps' hps
          rw [hstep]
          simp [runCleanup]
    · constructor
      · intro _
        refine ⟨by rw [hstep]; simp [runCleanup], by rw [hstep]; simp [runCleanup], ?_⟩
        simp only [runList, hstep]
        simp [runCleanup]
      · intro hy
        exfalso
        exact hy (by rw [hstep]; simp [runCleanup])

theorem room_run_transport_failure_witness :
    ((RoomState.initial "ident-1" (some "u") : RoomState) = RoomState.initial "ident-1" (some "u") ∨
      (none : Option RoomVerified) = some .yes) ∧
    attemptTransportEnded (RoomState.initial "ident-1" (some "u")) none
      (Attempt.connected []) ∧
    (((runStep (RoomState.initial "ident-1" (some "u")) none (Attempt.connected [])).2.1 = some .yes →
      (runStep (RoomState.initial "ident-1" (some "u")) none (Attempt.connected [])).1.status = .reconnecting ∧
      (runStep (RoomState.initial "ident-1" (some "u")) none (Attempt.connected [])).2.2 = true ∧
      runList (RoomState.initial "ident-1" (some "u")) none [Attempt.connected []] =
        runList (runStep (RoomState.initial "ident-1" (some "u")) none (Attempt.connected [])).1
          (runStep (RoomState.initial "ident-1" (some "u")) none (Attempt.connected [])).2.1 []) ∧
    ((runStep (RoomState.initial "ident-1" (some "u")) none (Attempt.connected [])).2.1 ≠ some .yes →
      (runStep (RoomState.initial "ident-1" (some "u")) none (Attempt.connected [])).2.2 = false ∧
      runList (RoomState.initial "ident-1" (some "u")) none [Attempt.connected []] =
        (runStep (RoomState.initial "ident-1" (some "u")) none (Attempt.connected [])).1 ∧
      (∀ e, Attempt.connected [] = .connectFailed e →
        (runStep (RoomState.initial "ident-1" (some "u")) none (Attempt.connected [])).1.status =
          .stopped (.couldNotConnect e)) ∧
      (∀ ps, Attempt.connected [] = .connected ps →
        (runStep (RoomState.initial "ident-1" (some "u")) none (Attempt.connected [])).1.status =
          .stopped .somethingWentWrong))) :=
  ⟨Or.inl rfl, by rfl,
   room_run_transport_failure (RoomState.initial "ident-1" (some "u")) none
     (Attempt.connected []) [] (Or.inl rfl) (by rfl)⟩

/-- **C1 (counterexample)**. An established connection that suffers a
transport failure before any `Room(Success)` reply leaves the room
`Stopped(SomethingWentWrong)`, not `Stopped(CouldNotConnect)` as the claim
states: `CouldNotConnect` is only written when `connect` itself fails. -/
theorem room_run_unverified_failure_cex :
    (runStep (RoomState.initial "ident-1" (some "u")) none
        (Attempt.connected [])).1.status =
      Status.stopped StopReason.somethingWentWrong ∧
    ∀ e, (runStep (RoomState.initial "ident-1" (some "u")) none
        (Attempt.connected [])).1.status ≠
      Status.stopped (StopReason.couldNotConnect e) := by
  refine ⟨by decide, ?_⟩
  intro e h
  simp [runStep, runCleanup, RoomState.receiveList] at h

/-- **C2 (amended)**. Starting a room and receiving `Room(Success)` then
`Identify(Success{you, others, last_message})` leaves `Present.session`
equal to `you` and `Present.others` the map collected from `others` (empty
when `others` is empty) — but the status is still `Connecting`: nothing in
`room.rs` ever assigns `Status::Nominal` (or `Identifying`). -/
theorem happy_join_amended (identity : String) (nick : Option String)
    (you : Session) (others : List Session) (lm : Option Nat) :
    ((RoomState.initial identity nick).connectState).receiveList none
      [.rpl 0 (.room .success), .rpl 1 (.identify (.success you others lm))] =
    ({ identity := identity, initialNick := nick, status := .connecting,
       connected := some ⟨0, []⟩,
       present := some ⟨you, collectSessions others⟩ }, some .yes, true) ∧
    collectSessions [] = [] :=
  ⟨rfl, rfl⟩

/-- **C2 (counterexample)**. In the happy-join scenario (scenario 1 of the
design document) the resulting status is `Connecting`, not `Nominal`. -/
theorem happy_join_status_cex :
    (((RoomState.initial "ident-1" (some "u")).connectState).receiveList none
      [.rpl 0 (.room .success),
       .rpl 1 (.identify (.success ⟨"s1", "u"⟩ [] none))]).1.status ≠
      Status.nominal := by
  decide

/-- The actions of the driver loop that are externally observable between
connection attempts.  `sleep` is included in the vocabulary so that a
backoff wait could be expressed; no branch of `Room::run` contains a timer
or sleep, so no step of the model emits it. -/
inductive DriverAction
  | connectAttempt
  | sleep (ms : Nat)
deriving DecidableEq, Repr

/-- The action trace of `Room::run` over a list of connection attempts:
each executed loop iteration begins immediately with the `Self::connect`
call (line 269); the loop body contains no delay between the cleanup of
one iteration and the connect of the next. -/
def runTrace (s : RoomState) (rv : Option RoomVerified) :
    List Attempt → List DriverAction
  | [] => []
  | a :: rest =>
    match runStep s rv a with
    | (s', rv', true) => DriverAction.connectAttempt :: runTrace s' rv' rest
    | (_, _, false) => [DriverAction.connectAttempt]

/-- **C5 (amended)**. The driver never waits between a connection failure
and the next connection attempt: its action trace contains no sleep at
all.  No backoff (exponential or otherwise) is implemented in
`Room::run`. -/
theorem room_run_no_backoff (s : RoomState) (rv : Option RoomVerified)
    (attempts : List Attempt) (d : Nat) :
    DriverAction.sleep d ∉ runTrace s rv attempts := by
  induction attempts generalizing s rv with
  | nil => simp [runTrace]
  | cons a rest ih =>
    rcases h : runStep s rv a with ⟨s', rv', cont⟩
    cases cont with
    | true =>
      simp only [runTrace, h, List.mem_cons]
      rintro (hc | hc)
      · cases hc
      · exact ih s' rv' hc
    | false =>
      simp [runTrace, h]

/-- **C5 (counterexample)**. A concrete run in which the first (verified)
connection fails and a second connection attempt follows: the trace is two
back-to-back connection attempts with no sleep action between them — the
driver reconnects immediately. -/
theorem room_run_immediate_reconnect_cex :
    runTrace (RoomState.initial "ident-1" (some "u")) none
      [Attempt.connected [Packet.rpl 0 (Rpl.room RoomRpl.success)],
       Attempt.connectFailed ⟨"network down"⟩] =
      [DriverAction.connectAttempt, DriverAction.connectAttempt] ∧
    ∀ d, DriverAction.sleep d ∉
      [DriverAction.connectAttempt, DriverAction.connectAttempt] := by
  refine ⟨by decide, ?_⟩
  intro d h
  simp at h

/-- **C6**. A `cmd` call while `connected` is `None` returns the
`NotConnected` error before touching anything: the state is unchanged (so
no request id is allocated and no waiter is registered) and no frame is
written. -/
theorem cmd_not_connected_noop (s : RoomState) (c : Cmd)
    (h : s.connected = none) :
    s.cmdSync c = (.error .notConnected, s, []) := by
  unfold RoomState.cmdSync
  rw [h]

theorem cmd_not_connected_noop_witness :
    (RoomState.initial "ident-1" none).connected = none ∧
    (RoomState.initial "ident-1" none).cmdSync Cmd.who =
      (.error .notConnected, RoomState.initial "ident-1" none, []) :=
  ⟨rfl, cmd_not_connected_noop (RoomState.initial "ident-1" none) Cmd.who rfl⟩

/-- While connected, a sequence of `cmd` calls allocates the ids
`next_id, next_id + 1, …` in order. -/
theorem allocIds_connected (cs : List Cmd) :
    ∀ (s : RoomState) (conn : Connected), s.connected = some conn →
    (s.allocIds cs).2 = List.range' conn.nextId cs.length := by
  induction cs with
  | nil =>
    intro s conn h
    simp [RoomState.allocIds, List.range']
  | cons c rest ih =>
    intro s conn h
    have hc : s.cmdSync c =
        (.ok conn.nextId,
         { s with connected := some { conn with
             nextId := conn.nextId + 1,
             pending := conn.pending ++ [conn.nextId] } },
         [Packet.cmd conn.nextId c]) := by
      unfold RoomState.cmdSync
      rw [h]
    simp only [RoomState.allocIds, hc]
    rw [ih _ _ rfl]
    simp [List.range'_succ]

/-- **C7**. Within one connection (starting from the fresh `Connected`
installed by `Room::run`, with `next_id: 0`), the request ids allocated by
successive `cmd` calls are `0, 1, …, n-1`: they start at 0, each call
allocates the previous id plus one, and they are strictly increasing and
pairwise distinct. -/
theorem cmd_ids_monotone (s : RoomState) (cs : List Cmd) :
    ((s.connectState).allocIds cs).2 = List.range cs.length ∧
    List.Sorted (· < ·) ((s.connectState).allocIds cs).2 ∧
    ((s.connectState).allocIds cs).2.Nodup := by
  have h := allocIds_connected cs s.connectState ⟨0, []⟩ rfl
  rw [h, ← List.range_eq_range']
  exact ⟨rfl, List.sorted_lt_range _, List.nodup_range _⟩

/-! ## Tree view: `src/ui/chat/tree.rs`

The `Cursor` type lives in the `cursor` submodule, which is not among the
sources; it is modelled from the spec (§3) and matches every use site in
`tree.rs`.  The embedded `EditorState` widget is external; it is modelled
as its text, with `clear()` producing the empty string.  The `store` field
of `InnerTreeViewState` is not consulted by `sent` or
`handle_editor_key_event` and is omitted. -/

/-- Modelled from the spec: the navigation cursor (§3). -/
inductive Cursor
  | bottom
  | msg (id : Nat)
  | editor (comingFrom : Option Nat) (par : Option Nat)
  | pseudo (comingFrom : Option Nat) (par : Option Nat)
deriving DecidableEq, Repr

/-- `Correction` from `tree.rs`. -/
inductive Correction
  | makeCursorVisible
  | moveCursorToVisibleArea
deriving DecidableEq, Repr

/-- `Reaction` from the chat module (the values produced in `tree.rs`):
not handled, handled, or a composed message handed to the room. -/
inductive Reaction
  | notHandled
  | handled
  | composed (par : Option Nat) (content : String)
deriving DecidableEq, Repr

/-- `InnerTreeViewState` (minus the store). -/
structure InnerTreeViewState where
  lastCursor : Cursor
  lastCursorLine : Int
  cursor : Cursor
  scroll : Int
  correction : Option Correction
  editor : String
deriving DecidableEq, Repr

/-- The key events reaching `handle_editor_key_event`: `Esc`, `Enter`, or
any other key, which is delegated to the external
`util::handle_editor_key_event`; for the latter the event carries the
external handler's outcome (whether it handled the key, and the editor
text afterwards). -/
inductive EditorKeyEvent
  | esc
  | enter
  | other (handled : Bool) (newText : String)
deriving DecidableEq, Repr

/-- `InnerTreeViewState::handle_editor_key_event` (lines 160–203), called
with the `coming_from` and `parent` of the current `Editor` cursor.  `Esc`
returns the cursor to `coming_from` and returns early; `Enter` with
non-blank content (`!content.trim().is_empty()`) moves to a `Pseudo`
cursor and emits `Composed`; `Enter` with blank content falls through to
the `MakeCursorVisible` correction and `Handled`. -/
def handleEditorKeyEvent (s : InnerTreeViewState) (ev : EditorKeyEvent)
    (comingFrom par : Option Nat) : InnerTreeViewState × Reaction :=
  match ev with
  | .esc =>
    ({ s with cursor := match comingFrom with
                        | some i => .msg i
                        | none => .bottom },
     .handled)
  | .enter =>
    if s.editor.trim ≠ "" then
      ({ s with cursor := .pseudo comingFrom par }, .composed par s.editor)
    else
      ({ s with correction := some .makeCursorVisible }, .handled)
  | .other handled newText =>
    if handled then
      ({ s with editor := newText, correction := some .makeCursorVisible },
       .handled)
    else
      (s, .notHandled)

/-- `InnerTreeViewState::sent` (lines 270–283); `TreeViewState::sent`
(lines 318–320) only locks the inner state and delegates to it. -/
def InnerTreeViewState.sent (s : InnerTreeViewState) (id : Option Nat) :
    InnerTreeViewState :=
  match s.cursor with
  | .pseudo comingFrom _ =>
    match id with
    | some i =>
      { s with lastCursor := .msg i, cursor := .msg i, editor := "" }
    | none =>
      { s with cursor := match comingFrom with
                         | some i => .msg i
                         | none => .bottom }
  | _ => s

/-- The cursor position encoded by a `coming_from` value: the message it
names, or `Bottom` when the editor was entered from the bottom
(`coming_from.map(Cursor::Msg).unwrap_or(Cursor::Bottom)`). -/
def cursorFrom (comingFrom : Option Nat) : Cursor :=
  match comingFrom with
  | some i => .msg i
  | none => .bottom

/-- **C3**. From any `Pseudo{coming_from, parent}` cursor, `sent(Some(id))`
sets both the cursor and `last_cursor` to `Msg(id)` and clears the editor;
`sent(None)` returns the cursor to the position it came from (`Msg` of
`coming_from`, or `Bottom` when the editor was entered from the bottom). -/
theorem tree_view_sent_roundtrip (s : InnerTreeViewState)
    (comingFrom par : Option Nat) (id : Nat)
    (h : s.cursor = .pseudo comingFrom par) :
    (s.sent (some id)).cursor = .msg id ∧
    (s.sent (some id)).lastCursor = .msg id ∧
    (s.sent (some id)).editor = "" ∧
    (s.sent none).cursor = cursorFrom comingFrom := by
  obtain ⟨lc, lcl, cur, sc, corr, ed⟩ := s
  have h' : cur = Cursor.pseudo comingFrom par := h
  subst h'
  exact ⟨rfl, rfl, rfl, rfl⟩

/-- A tree view state sitting on a `Pseudo` cursor after composing from
`Msg(3)` a reply with parent 1 (scenario 6 of the design document). -/
def demoTreeView : InnerTreeViewState :=
  ⟨.bottom, 0, .pseudo (some 3) (some 1), 0, none, "hi"⟩

theorem tree_view_sent_roundtrip_witness :
    demoTreeView.cursor = .pseudo (some 3) (some 1) ∧
    ((demoTreeView.sent (some 7)).cursor = .msg 7 ∧
     (demoTreeView.sent (some 7)).lastCursor = .msg 7 ∧
     (demoTreeView.sent (some 7)).editor = "" ∧
     (demoTreeView.sent none).cursor = Cursor.msg 3) :=
  ⟨rfl, tree_view_sent_roundtrip demoTreeView (some 3) (some 1) 7 rfl⟩

/-- **C4**. While the cursor is `Editor{coming_from, parent}`, `Enter` with
non-blank editor content emits `Composed{parent, content}` and moves the
cursor to `Pseudo{coming_from, parent}`; `Enter` with blank content emits
nothing (the reaction is `Handled`, never `Composed`) and leaves the
cursor the same `Editor`. -/
theorem editor_enter_compose (s : InnerTreeViewState)
    (comingFrom par : Option Nat) (h : s.cursor = .editor comingFrom par) :
    (s.editor.trim ≠ "" →
      handleEditorKeyEvent s .enter comingFrom par =
        ({ s with cursor := .pseudo comingFrom par }, .composed par s.editor)) ∧
    (s.editor.trim = "" →
      (handleEditorKeyEvent s .enter comingFrom par).2 = .handled ∧
      (∀ p c, (handleEditorKeyEvent s .enter comingFrom par).2 ≠ .composed p c) ∧
      (handleEditorKeyEvent s .enter comingFrom par).1.cursor =
        .editor comingFrom par) := by
  constructor
  · intro hne
    unfold handleEditorKeyEvent
    rw [if_pos hne]
  · intro heq
    have hnn : ¬ s.editor.trim ≠ "" := by simp [heq]
    unfold handleEditorKeyEvent
    rw [if_neg hnn]
    refine ⟨rfl, ?_, h⟩
    intro p c hc
    exact Reaction.noConfusion hc

/-- A tree view state with the editor open (entered from `Msg(3)`, reply
parent 1) and the text "hi" typed. -/
def demoEditorView : InnerTreeViewState :=
  ⟨.bottom, 0, .editor (some 3) (some 1), 0, none, "hi"⟩

theorem editor_enter_compose_witness :
    demoEditorView.cursor = .editor (some 3) (some 1) ∧
    ((demoEditorView.editor.trim ≠ "" →
      handleEditorKeyEvent demoEditorView .enter (some 3) (some 1) =
        ({ demoEditorView with cursor := .pseudo (some 3) (some 1) },
         .composed (some 1) demoEditorView.editor)) ∧
    (demoEditorView.editor.trim = "" →
      (handleEditorKeyEvent demoEditorView .enter (some 3) (some 1)).2 = .handled ∧
      (∀ p c, (handleEditorKeyEvent demoEditorView .enter (some 3) (some 1)).2 ≠
        .composed p c) ∧
      (handleEditorKeyEvent demoEditorView .enter (some 3) (some 1)).1.cursor =
        .editor (some 3) (some 1))) :=
  ⟨rfl, editor_enter_compose demoEditorView (some 3) (some 1) rfl⟩

/-! ## Rooms UI delete dialog: `cove/src/ui/rooms.rs`

`EuphRoom` is external to the modelled core; for `stabilize_rooms` only
its `stopped()` flag matters (its `retain()` call does not change the room
map), so a room is modelled by that flag.  The vault delete is returned as
an explicit action. -/

/-- The room list UI's `State`. -/
inductive RoomsUiState
  | showList
  | showRoom (name : String)
  | connectDialog (editor : String)
  | deleteDialog (name : String) (editor : String)
deriving DecidableEq, Repr

/-- An entry of the `euph_rooms` map: abstracted to its `stopped()`
flag. -/
structure EuphRoomM where
  stopped : Bool
deriving DecidableEq, Repr

/-- The `Rooms` fields the delete dialog touches: the UI state and the
in-memory `euph_rooms` map (an association list keyed by room name). -/
structure RoomsM where
  state : RoomsUiState
  euphRooms : List (String × EuphRoomM)
deriving DecidableEq, Repr

/-- The `rooms_set` computed by `stabilize_rooms` (lines 142–153): rooms
known to the vault or the config, plus the currently shown room. -/
def roomsSetOf (db cfg : List String) (st : RoomsUiState) : List String :=
  ((db ++ cfg) ++ (match st with | .showRoom n => [n] | _ => [])).dedup

/-- `Rooms::stabilize_rooms` (lines 141–164) at the level of the room map:
retain rooms that are running (`!r.stopped()`) or must exist, then insert
any missing room of `rooms_set` (`get_or_insert_room`; its `retain()` call
does not affect map membership).  Freshly inserted rooms are not
stopped. -/
def stabilizeRooms (r : RoomsM) (db cfg : List String) : RoomsM :=
  let set := roomsSetOf db cfg r.state
  let kept := r.euphRooms.filter (fun nr => !nr.2.stopped || set.contains nr.1)
  let inserted := (set.filter (fun n => !(kept.any (fun nr => nr.1 = n)))).map
    (fun n => (n, (⟨false⟩ : EuphRoomM)))
  { r with euphRooms := kept ++ inserted }

/-- The input events the delete dialog distinguishes: the abort key, the
confirm key, or any other input, which is delegated to
`util::handle_editor_input_event` (external); for the latter the event
carries the external editor handler's outcome. -/
inductive InputKind
  | abort
  | confirm
  | editorInput (handled : Bool) (newText : String)
deriving DecidableEq, Repr

/-- The externally visible effect of the delete dialog. -/
inductive VaultAction
  | deleteRoomHistory (name : String)
deriving DecidableEq, Repr

/-- `Rooms::handle_input_event` (lines 491–546) restricted to the
`State::Delete(name, editor)` dialog: first `stabilize_rooms` runs (line
492), then abort closes the dialog; confirm removes `name` from
`euph_rooms`, deletes the room's history from the vault and closes the
dialog — without ever reading the editor text; any other input goes to the
external editor widget.  The remaining UI states dispatch to widgets
outside the modelled core and are returned unhandled here. -/
def handleDeleteDialogInput (r : RoomsM) (db cfg : List String)
    (ev : InputKind) : RoomsM × List VaultAction × Bool :=
  let r1 := stabilizeRooms r db cfg
  match r1.state with
  | .deleteDialog name editor =>
    match ev with
    | .abort => ({ r1 with state := .showList }, [], true)
    | .confirm =>
      ({ r1 with euphRooms := r1.euphRooms.filter (fun nr => nr.1 ≠ name),
                 state := .showList },
       [.deleteRoomHistory name], true)
    | .editorInput handled newText =>
      if handled then
        ({ r1 with state := .deleteDialog name newText }, [], true)
      else
        (r1, [], false)
  | _ => (r1, [], false)

/-- **C10**. In the delete dialog for room `name`, the confirm key removes
the room from the in-memory map and deletes its history from the vault for
every editor content — the outcome is identical for any two typed texts,
so the name comparison the dialog's prompt asks for is never performed. -/
theorem delete_room_ignores_editor (r : RoomsM) (db cfg : List String)
    (name editor editor2 : String)
    (h : r.state = .deleteDialog name editor) :
    (handleDeleteDialogInput r db cfg .confirm).2.1 =
      [.deleteRoomHistory name] ∧
    (handleDeleteDialogInput r db cfg .confirm).2.2 = true ∧
    (handleDeleteDialogInput r db cfg .confirm).1.state = .showList ∧
    (∀ nr ∈ (handleDeleteDialogInput r db cfg .confirm).1.euphRooms,
      nr.1 ≠ name) ∧
    handleDeleteDialogInput { r with state := .deleteDialog name editor2 }
        db cfg .confirm =
      handleDeleteDialogInput r db cfg .confirm := by
  obtain ⟨st, rooms⟩ := r
  have h' : st = .deleteDialog name editor := h
  subst h'
  refine ⟨rfl, rfl, rfl, ?_, rfl⟩
  intro nr hm
  have := (List.mem_filter.mp hm).2
  simpa using this

/-- A delete dialog for room "test" with a different text typed. -/
def demoRooms : RoomsM :=
  ⟨.deleteDialog "test" "typo", [("test", ⟨false⟩), ("other", ⟨false⟩)]⟩

theorem delete_room_ignores_editor_witness :
    demoRooms.state = .deleteDialog "test" "typo" ∧
    ((handleDeleteDialogInput demoRooms ["test"] [] .confirm).2.1 =
      [.deleteRoomHistory "test"] ∧
    (handleDeleteDialogInput demoRooms ["test"] [] .confirm).2.2 = true ∧
    (handleDeleteDialogInput demoRooms ["test"] [] .confirm).1.state =
      .showList ∧
    (∀ nr ∈ (handleDeleteDialogInput demoRooms ["test"] [] .confirm).1.euphRooms,
      nr.1 ≠ "test") ∧
    handleDeleteDialogInput
        { demoRooms with state := .deleteDialog "test" "something else" }
        ["test"] [] .confirm =
      handleDeleteDialogInput demoRooms ["test"] [] .confirm) :=
  ⟨rfl, delete_room_ignores_editor demoRooms ["test"] []
    "test" "typo" "something else" rfl⟩
